import Mathlib

/-!
# agentmine: the command-line dispatcher

A shallow embedding of `cli/cmd/agentmine/main.go`.  The program builds a tree of
`cobra.Command` values and calls `rootCmd.Execute()`; every observable behaviour is
decided by that call.  The embedding therefore has two layers:

* the command tree and the `RunE` closures, transcribed from `main.go`;
* the part of `github.com/spf13/cobra` (`command.go`, `args.go`, `completions.go`) and of
  `github.com/spf13/pflag` (`flag.go`) that `Execute` runs on this tree: command lookup
  (`Find`, `stripFlags`, `argsMinusFirstX`, `legacyArgsValidation`), flag parsing for the
  boolean flags the tree declares, the help/version short-circuits, `ValidateArgs`, and
  the commands `Execute` adds by itself (`help`, `completion`, `__complete`).

Text rendered from cobra's templates (help, usage, completion scripts) is kept abstract
as a `Chunk`; text written with `fmt.Printf`/`fmt.Println` and the version line are kept
literally.  The input of `main` is `os.Args[1:]`.
-/

namespace Agentmine

/-! ## Go string helpers -/

/-- Go `strings.HasPrefix(s, p)` -/
def HasPrefix (s p : String) : Bool := p.data.isPrefixOf s.data

/-- Go `strings.Contains(s, "=")` -/
def ContainsEq (s : String) : Bool := s.data.contains '='

/-- Go `len(s)`: the length in bytes -/
def len (s : String) : Nat := s.utf8ByteSize

/-! ## Errors and output -/

/-- The errors cobra and pflag can return on this command tree -/
inductive Err where
  /-- From `ExactArgs(n)`: "accepts n arg(s), received k" -/
  | exactArgs (n received : Nat)
  /-- From `MinimumNArgs(n)`: "requires at least n arg(s), only received k" -/
  | minimumNArgs (n received : Nat)
  /-- From `legacyArgsValidation` and `NoArgs`: "unknown command arg for path" -/
  | unknownCommand (arg path : String)
  /-- From pflag: "bad flag syntax: s" -/
  | badFlag (s : String)
  /-- From pflag: "unknown flag: --name" -/
  | unknownFlag (name : String)
  /-- From pflag: "unknown shorthand flag: c in -shorthands", where c is the first byte
  of `shorthands` -/
  | unknownShorthand (shorthands : String)
  /-- From pflag: "invalid argument value for --name flag" (`strconv.ParseBool` failed) -/
  | invalidArgument (value name : String)
  deriving DecidableEq, Repr

/-- Whether the error reports a wrong number of positional arguments -/
def Err.isArgCount : Err → Bool
  | .exactArgs _ _ => true
  | .minimumNArgs _ _ => true
  | _ => false

/-- Whether the error comes from flag parsing -/
def Err.isFlagError : Err → Bool
  | .badFlag _ => true
  | .unknownFlag _ => true
  | .unknownShorthand _ => true
  | .invalidArgument _ _ => true
  | _ => false

/-- One piece of text written to a stream -/
inductive Chunk where
  /-- Literal text -/
  | text (s : String)
  /-- The help template rendered for the command with this command path -/
  | help (path : String)
  /-- The usage template rendered for the command with this command path -/
  | usage (path : String)
  /-- The line "Error: msg" that `ExecuteC` prints -/
  | errorLine (e : Err)
  /-- The line "Run 'path --help' for usage." -/
  | runHelpHint (path : String)
  /-- The line that `fmt.Fprintln(os.Stderr, err)` of `main` prints -/
  | mainErr (e : Err)
  /-- The line "Unknown help topic args" of the help command -/
  | unknownHelpTopic (args : List String)
  /-- The completion script for a shell -/
  | completionScript (shell : String)
  /-- The candidates and directive printed by `__complete` -/
  | completions (args : List String)
  /-- The line "Completion ended with directive: ..." printed by `__complete` -/
  | completionEnded (args : List String)
  /-- The report of the Go runtime of an index out of range -/
  | panicTrace
  deriving DecidableEq, Repr

/-- What one run of the process leaves behind -/
structure Result where
  stdout : List Chunk
  stderr : List Chunk
  exit : Nat
  deriving DecidableEq, Repr

/-! ## Commands -/

/-- The type `cobra.PositionalArgs`; the command is passed as its command path -/
abbrev PositionalArgs := String → List String → Option Err

/-- Validator `cobra.ExactArgs(n)` -/
def ExactArgs (n : Nat) : PositionalArgs := fun _ args =>
  if args.length ≠ n then some (Err.exactArgs n args.length) else none

/-- Validator `cobra.MinimumNArgs(n)` -/
def MinimumNArgs (n : Nat) : PositionalArgs := fun _ args =>
  if args.length < n then some (Err.minimumNArgs n args.length) else none

/-- Validator `cobra.NoArgs` -/
def NoArgs : PositionalArgs := fun path args =>
  match args with
  | a :: _ => some (Err.unknownCommand a path)
  | [] => none

/-- Validator `cobra.ArbitraryArgs` -/
def ArbitraryArgs : PositionalArgs := fun _ _ => none

/-- A boolean flag (`Flags().Bool`/`BoolP`); its `NoOptDefVal` is "true" -/
structure Flag where
  Name : String
  Shorthand : Option Char
  deriving DecidableEq, Repr

/-- The `Run`/`RunE` field of a command.  A `RunE` closure of `main.go` maps the
positional arguments to the text it prints, or to `none` when an index expression
`args[i]` is out of range; the three other handlers are the ones cobra installs. -/
inductive Handler where
  | runE (f : List String → Option String)
  | helpCmd
  | genCompletion (shell : String)
  | complete

/-- The fields of `cobra.Command` that `main.go` sets or `Execute` reads -/
structure Command where
  Use : String
  Aliases : List String
  Version : String
  Args : Option PositionalArgs
  RunE : Option Handler
  DisableFlagParsing : Bool
  flags : List Flag
  commands : List Command

/-- The literal `&cobra.Command\x7bUse: use\x7d` -/
def Command.new (use : String) : Command :=
  ⟨use, [], "", none, none, false, [], []⟩

/-- Method `Command.Name`: the first word of `Use` -/
def Command.Name (c : Command) : String :=
  String.mk (c.Use.data.takeWhile (fun ch => ch != ' '))

/-- Method `Command.HasAlias` -/
def Command.HasAlias (c : Command) (s : String) : Bool := c.Aliases.contains s

/-- Method `Command.AddCommand` -/
def Command.AddCommand (c : Command) (x : Command) : Command :=
  { c with commands := c.commands ++ [x] }

/-- Method `Command.RemoveCommand`, for a command given by its name -/
def Command.RemoveCommand (c : Command) (name : String) : Command :=
  { c with commands := c.commands.filter (fun x => x.Name != name) }

/-- Method `Command.HasSubCommands` -/
def Command.HasSubCommands (c : Command) : Bool := !c.commands.isEmpty

/-! ## The program (`main.go`) -/

/-- Package variable `version` -/
def version : String := "0.1.0"

/-- Function `initCmd` -/
def initCmd : Command :=
  { Command.new "init" with
    RunE := some (Handler.runE fun _ => some "Initializing agentmine...\n") }

/-- The command literal `add [title]` of `taskCmd` -/
def taskAdd : Command :=
  { Command.new "add [title]" with
    Args := some (ExactArgs 1)
    RunE := some (Handler.runE fun args => do
      let a0 ← args[0]?
      pure ("Adding task: " ++ a0 ++ "\n")) }

/-- The command literal `list` of `taskCmd` -/
def taskList : Command :=
  { Command.new "list" with
    RunE := some (Handler.runE fun _ => some "Listing tasks...\n") }

/-- The command literal `show [id]` of `taskCmd` -/
def taskShow : Command :=
  { Command.new "show [id]" with
    Args := some (ExactArgs 1)
    RunE := some (Handler.runE fun args => do
      let a0 ← args[0]?
      pure ("Showing task: " ++ a0 ++ "\n")) }

/-- The command literal `start [id]` of `taskCmd` -/
def taskStart : Command :=
  { Command.new "start [id]" with
    Args := some (ExactArgs 1)
    RunE := some (Handler.runE fun args => do
      let a0 ← args[0]?
      pure ("Starting task: " ++ a0 ++ "\n")) }

/-- The command literal `done [id]` of `taskCmd` -/
def taskDone : Command :=
  { Command.new "done [id]" with
    Args := some (ExactArgs 1)
    RunE := some (Handler.runE fun args => do
      let a0 ← args[0]?
      pure ("Completing task: " ++ a0 ++ "\n")) }

/-- Function `taskCmd` -/
def taskCmd : Command :=
  let cmd := Command.new "task"
  let cmd := cmd.AddCommand taskAdd
  let cmd := cmd.AddCommand taskList
  let cmd := cmd.AddCommand taskShow
  let cmd := cmd.AddCommand taskStart
  let cmd := cmd.AddCommand taskDone
  cmd

/-- The command literal `list` of `agentCmd` -/
def agentList : Command :=
  { Command.new "list" with
    RunE := some (Handler.runE fun _ => some "Listing agents...\n") }

/-- The command literal `run [name] [prompt]` of `agentCmd` -/
def agentRun : Command :=
  { Command.new "run [name] [prompt]" with
    Args := some (MinimumNArgs 2)
    RunE := some (Handler.runE fun args => do
      let a0 ← args[0]?
      let a1 ← args[1]?
      pure ("Running agent " ++ a0 ++ " with prompt: " ++ a1 ++ "\n")) }

/-- Function `agentCmd` -/
def agentCmd : Command :=
  let cmd := Command.new "agent"
  let cmd := cmd.AddCommand agentList
  let cmd := cmd.AddCommand agentRun
  cmd

/-- The command literal `list` of `skillCmd` -/
def skillList : Command :=
  { Command.new "list" with
    RunE := some (Handler.runE fun _ => some "Listing skills...\n") }

/-- The command literal `run [name]` of `skillCmd` -/
def skillRun : Command :=
  { Command.new "run [name]" with
    Args := some (ExactArgs 1)
    RunE := some (Handler.runE fun args => do
      let a0 ← args[0]?
      pure ("Running skill: " ++ a0 ++ "\n")) }

/-- Function `skillCmd` -/
def skillCmd : Command :=
  let cmd := Command.new "skill"
  let cmd := cmd.AddCommand skillList
  let cmd := cmd.AddCommand skillRun
  cmd

/-- Function `uiCmd` -/
def uiCmd : Command :=
  { Command.new "ui" with
    RunE := some (Handler.runE fun _ => some "Starting web UI on http://localhost:3333\n") }

/-- The value of `rootCmd` in `main` when `Execute` is called -/
def rootCmd : Command :=
  let rootCmd := { Command.new "agentmine" with Version := version }
  let rootCmd := rootCmd.AddCommand initCmd
  let rootCmd := rootCmd.AddCommand taskCmd
  let rootCmd := rootCmd.AddCommand agentCmd
  let rootCmd := rootCmd.AddCommand skillCmd
  let rootCmd := rootCmd.AddCommand uiCmd
  rootCmd

/-! ## Flag parsing (`pflag`) -/

/-- Method `FlagSet.Lookup` -/
def Lookup (fs : List Flag) (name : String) : Option Flag :=
  fs.find? (fun f => f.Name == name)

/-- Method `FlagSet.ShorthandLookup`, for one character -/
def ShorthandLookup (fs : List Flag) (c : Char) : Option Flag :=
  fs.find? (fun f => f.Shorthand == some c)

/-- Go `strconv.ParseBool` -/
def ParseBool (s : String) : Option Bool :=
  if s ∈ ["1", "t", "T", "TRUE", "true", "True"] then some true
  else if s ∈ ["0", "f", "F", "FALSE", "false", "False"] then some false
  else none

/-- Method `FlagSet.Set` on a boolean flag: the new value, or the error of `ParseBool` -/
def setFlag (flag : Flag) (value : String) : Except Err (String × Bool) :=
  match ParseBool value with
  | some b => .ok (flag.Name, b)
  | none => .error (Err.invalidArgument value flag.Name)

/-- Method `FlagSet.parseLongArg` for `s = "--" ++ name`.  Every flag is boolean, so its
`NoOptDefVal` is set and the following argument is never taken as the value. -/
def parseLongArg (fs : List Flag) (name : List Char) : Except Err (String × Bool) :=
  match name with
  | [] => .error (Err.badFlag "--")
  | c :: _ =>
    if c = '-' ∨ c = '=' then .error (Err.badFlag (String.mk ('-' :: '-' :: name)))
    else
      -- strings.SplitN(name, "=", 2)
      let key := String.mk (name.takeWhile (fun ch => ch != '='))
      let value := name.dropWhile (fun ch => ch != '=')
      match Lookup fs key with
      | none => .error (Err.unknownFlag key)
      | some flag =>
        match value with
        | _ :: v => setFlag flag (String.mk v)   -- "--flag=arg"
        | [] => setFlag flag "true"              -- "--flag", the value is NoOptDefVal

/-- Method `FlagSet.parseShortArg` for `s = "-" ++ shorthands`: the loop over
`parseSingleShortArg`, which consumes one shorthand letter per round. -/
def parseShortArg (fs : List Flag) :
    List Char → Except Err (List (String × Bool))
  | [] => .ok []
  | c :: rest =>
    if ("test.".data).isPrefixOf (c :: rest) then .ok []
    else
      match ShorthandLookup fs c with
      | none => .error (Err.unknownShorthand (String.mk (c :: rest)))
      | some flag =>
        match rest with
        | '=' :: v@(_ :: _) =>                  -- "-f=arg"
          (setFlag flag (String.mk v)).map (fun x => [x])
        | _ => do                               -- "-f", the value is NoOptDefVal
          let x ← setFlag flag "true"
          let xs ← parseShortArg fs rest
          pure (x :: xs)

/-- Method `FlagSet.parseArgs` (interspersed): the flag assignments in order, and the
positional arguments `FlagSet.Args()` -/
def parseArgs (fs : List Flag) :
    List String → Except Err (List (String × Bool) × List String)
  | [] => .ok ([], [])
  | s :: args =>
    match s.data with
    | ['-', '-'] => .ok ([], args)              -- "--" terminates the flags
    | '-' :: '-' :: name => do
      let x ← parseLongArg fs name
      let (xs, pos) ← parseArgs fs args
      pure (x :: xs, pos)
    | '-' :: c :: shorthands => do
      let x ← parseShortArg fs (c :: shorthands)
      let (xs, pos) ← parseArgs fs args
      pure (x ++ xs, pos)
    | _ => do
      let (xs, pos) ← parseArgs fs args
      pure (xs, s :: pos)

/-- Method `FlagSet.GetBool` after parsing: the last assignment, `false` by default -/
def GetBool (vals : List (String × Bool)) (name : String) : Bool :=
  match vals.reverse.find? (fun x => x.1 == name) with
  | some x => x.2
  | none => false

/-! ## Command lookup (`cobra`, `command.go`) -/

/-- Function `hasNoOptDefVal`: the flag exists (every flag here has a `NoOptDefVal`) -/
def hasNoOptDefVal (name : String) (fs : List Flag) : Bool := (Lookup fs name).isSome

/-- Function `shortHasNoOptDefVal`, which looks at the first character of `name` -/
def shortHasNoOptDefVal (name : List Char) (fs : List Flag) : Bool :=
  match name with
  | [] => false
  | c :: _ => (ShorthandLookup fs c).isSome

/-- The guard shared by `stripFlags` and `argsMinusFirstX`: `s` is "--flag" or "-f"
without "=", for a flag that needs a value, so the next argument is its value -/
def takesValue (fs : List Flag) (s : String) : Bool :=
  (HasPrefix s "--" && !ContainsEq s && !hasNoOptDefVal (String.mk (s.data.drop 2)) fs) ||
  (HasPrefix s "-" && !ContainsEq s && len s == 2 && !shortHasNoOptDefVal (s.data.drop 1) fs)

/-- Function `stripFlags`: the arguments that can be command words -/
def stripFlags (fs : List Flag) : List String → List String
  | [] => []
  | s :: args =>
    if s = "--" then []
    else if takesValue fs s then
      if args.length ≤ 1 then []                  -- break Loop
      else
        match args with
        | _ :: rest => stripFlags fs rest         -- args = args[1:]
        | [] => []
    else if s ≠ "" ∧ HasPrefix s "-" = false then s :: stripFlags fs args
    else stripFlags fs args

/-- Method `Command.argsMinusFirstX`: `args` without the first command word equal to `x` -/
def argsMinusFirstX (fs : List Flag) (x : String) : List String → List String
  | [] => []
  | s :: args =>
    if s = "--" then s :: args
    else if takesValue fs s then
      match args with
      | v :: rest => s :: v :: argsMinusFirstX fs x rest
      | [] => [s]
    else if HasPrefix s "-" = false then
      if s = x then args else s :: argsMinusFirstX fs x args
    else s :: argsMinusFirstX fs x args

/-- Method `Command.findNext` (prefix matching is off, names are case-sensitive) -/
def findNext (c : Command) (next : String) : Option Command :=
  c.commands.find? (fun cmd => cmd.Name == next || cmd.HasAlias next)

/-- What `Find` returns, with the two facts about the found command that the tree itself
does not record: its `CommandPath()` and whether it `HasParent()` -/
structure Found where
  cmd : Command
  path : String
  hasParent : Bool
  args : List String

mutual
/-- The closure `innerfind` of `Command.Find`; the recursion follows the command tree -/
def innerfind : Command → String → Bool → List String → Found
  | c@⟨_, _, _, _, _, _, fs, cs⟩, path, hasParent, innerArgs =>
    match stripFlags fs innerArgs with
    | [] => ⟨c, path, hasParent, innerArgs⟩
    | nextSubCmd :: _ =>
      match innerfindNext cs path nextSubCmd (argsMinusFirstX fs nextSubCmd innerArgs) with
      | some r => r
      | none => ⟨c, path, hasParent, innerArgs⟩
/-- The search of `findNext` through `commands`, continued by `innerfind` on the match -/
def innerfindNext : List Command → String → String → List String → Option Found
  | [], _, _, _ => none
  | cmd :: cmds, path, next, rest =>
    if cmd.Name == next || cmd.HasAlias next then
      some (innerfind cmd (path ++ " " ++ cmd.Name) true rest)
    else innerfindNext cmds path next rest
end

/-- Function `legacyArgsValidation` -/
def legacyArgsValidation (r : Found) (args : List String) : Option Err :=
  if !r.cmd.HasSubCommands then none
  else
    match r.hasParent, args with
    | false, a :: _ => some (Err.unknownCommand a r.path)
    | _, _ => none

/-- Method `Command.Find`, called on the root `c` -/
def Find (c : Command) (args : List String) : Found × Option Err :=
  let commandFound := innerfind c c.Name false args
  if commandFound.cmd.Args.isNone then
    (commandFound,
      legacyArgsValidation commandFound (stripFlags commandFound.cmd.flags commandFound.args))
  else (commandFound, none)

/-! ## Execution (`cobra`, `command.go` and `completions.go`) -/

/-- Method `Command.InitDefaultHelpFlag`, on the command's flag set -/
def InitDefaultHelpFlag (fs : List Flag) : List Flag :=
  if (Lookup fs "help").isNone then fs ++ [⟨"help", some 'h'⟩] else fs

/-- Method `Command.InitDefaultVersionFlag`, on the command's flag set -/
def InitDefaultVersionFlag (c : Command) (fs : List Flag) : List Flag :=
  if c.Version = "" then fs
  else if (Lookup fs "version").isNone then
    if (ShorthandLookup fs 'v').isNone then fs ++ [⟨"version", some 'v'⟩]
    else fs ++ [⟨"version", none⟩]
  else fs

/-- Method `Command.ValidateArgs` -/
def ValidateArgs (c : Command) (path : String) (args : List String) : Option Err :=
  match c.Args with
  | none => ArbitraryArgs path args
  | some validate => validate path args

/-- The default version template, rendered: the name, "version" and the version -/
def versionText (c : Command) : String :=
  (if c.Name = "" then "" else c.Name ++ " ") ++ "version " ++ c.Version ++ "\n"

/-- How `Command.execute` ends -/
inductive Exec where
  /-- It returned nil after writing to the two streams -/
  | done (stdout stderr : List Chunk)
  /-- It returned `flag.ErrHelp` -/
  | errHelp
  /-- It returned another error -/
  | error (e : Err)
  /-- An index expression of the handler was out of range -/
  | panic

/-- The call of the command's `Run`/`RunE` with the positional arguments -/
def runHandler (root : Command) (h : Handler) (args : List String) : Exec :=
  match h with
  | .runE f =>
    match f args with
    | some out => .done [Chunk.text out] []
    | none => .panic
  | .helpCmd =>
    -- cmd, _, e := c.Root().Find(args)
    match Find root args with
    | (_, some _) => .done [] [Chunk.unknownHelpTopic args, Chunk.usage root.Name]
    | (r, none) => .done [Chunk.help r.path] []
  | .genCompletion shell => .done [Chunk.completionScript shell] []
  | .complete => .done [Chunk.completions args] [Chunk.completionEnded args]

/-- Method `Command.execute` on the found command `c`, whose command path is `path` -/
def execute (root c : Command) (path : String) (a : List String) : Exec :=
  let fs := InitDefaultVersionFlag c (InitDefaultHelpFlag c.flags)
  match (if c.DisableFlagParsing then .ok ([], []) else parseArgs fs a) with
  | .error e => .error e
  | .ok (vals, pos) =>
    if GetBool vals "help" then .errHelp
    else if c.Version ≠ "" ∧ GetBool vals "version" then .done [Chunk.text (versionText c)] []
    else
      match c.RunE with
      | none => .errHelp                          -- !c.Runnable()
      | some h =>
        let argWoFlags := if c.DisableFlagParsing then a else pos
        match ValidateArgs c path argWoFlags with
        | some e => .error e
        | none => runHandler root h argWoFlags

/-- The command that `InitDefaultHelpCmd` creates -/
def helpCommand : Command :=
  { Command.new "help [command]" with RunE := some Handler.helpCmd }

/-- Method `Command.InitDefaultHelpCmd` -/
def InitDefaultHelpCmd (c : Command) : Command :=
  if !c.HasSubCommands then c
  else (c.RemoveCommand helpCommand.Name).AddCommand helpCommand

/-- One of the four shell commands under `completion` -/
def shellCompletionCmd (shell : String) : Command :=
  { Command.new shell with
    Args := some NoArgs
    RunE := some (Handler.genCompletion shell)
    flags := [⟨"no-descriptions", none⟩] }

/-- The command that `InitDefaultCompletionCmd` creates -/
def completionCmd : Command :=
  let cmd := { Command.new "completion" with Args := some NoArgs }
  let cmd := cmd.AddCommand (shellCompletionCmd "bash")
  let cmd := cmd.AddCommand (shellCompletionCmd "zsh")
  let cmd := cmd.AddCommand (shellCompletionCmd "fish")
  let cmd := cmd.AddCommand (shellCompletionCmd "powershell")
  cmd

/-- Method `Command.InitDefaultCompletionCmd`, for a root that has real subcommands -/
def InitDefaultCompletionCmd (c : Command) : Command :=
  if c.commands.any (fun cmd => cmd.Name == "completion" || cmd.HasAlias "completion") then c
  else c.AddCommand completionCmd

/-- The hidden command that `initCompleteCmd` creates -/
def completeCmd : Command :=
  { Command.new "__complete [command-line]" with
    Aliases := ["__completeNoDesc"]
    DisableFlagParsing := true
    Args := some (MinimumNArgs 1)
    RunE := some Handler.complete }

/-- Method `Command.initCompleteCmd`: the command stays only when it is the one called -/
def initCompleteCmd (c : Command) (args : List String) : Command :=
  let c1 := c.AddCommand completeCmd
  match Find c1 args with
  | (_, some _) => c1.RemoveCommand completeCmd.Name
  | (subCmd, none) =>
    if subCmd.cmd.Name ≠ "__complete" then c1.RemoveCommand completeCmd.Name else c1

/-- How `Command.ExecuteC` ends: what it wrote and the error it returns, or a panic -/
inductive Executed where
  | returned (stdout stderr : List Chunk) (err : Option Err)
  | panic

/-- Method `Command.ExecuteC` (what `Execute` runs) on the root `c` with `os.Args[1:]` -/
def ExecuteC (c : Command) (args : List String) : Executed :=
  let c := InitDefaultHelpCmd c
  let c := InitDefaultCompletionCmd c
  let c := initCompleteCmd c args
  match Find c args with
  | (cmd, some err) =>
    .returned [] [Chunk.errorLine err, Chunk.runHelpHint cmd.path] (some err)
  | (cmd, none) =>
    match execute c cmd.cmd cmd.path cmd.args with
    | .errHelp => .returned [Chunk.help cmd.path] [] none
    | .error err => .returned [] [Chunk.errorLine err, Chunk.usage cmd.path] (some err)
    | .done out errOut => .returned out errOut none
    | .panic => .panic

/-- Function `main`, given `os.Args[1:]`; a Go panic ends the process with status 2 -/
def main (args : List String) : Result :=
  match ExecuteC rootCmd args with
  | .returned out errOut none => ⟨out, errOut, 0⟩
  | .returned out errOut (some err) => ⟨out, errOut ++ [Chunk.mainErr err], 1⟩
  | .panic => ⟨[], [Chunk.panicTrace], 2⟩

/-! ## Vocabulary of the statements -/

/-- The test of `parseArgs` for a flag token: `s` starts with "-" and is longer than "-" -/
def isFlag (s : String) : Bool :=
  match s.data with
  | '-' :: _ :: _ => true
  | _ => false

/-- The root command once `ExecuteC` has added `help` and `completion` -/
def fullRoot : Command := InitDefaultCompletionCmd (InitDefaultHelpCmd rootCmd)

/-- The command reached from `c` by following command words, with its command path -/
def walk (c : Command) (path : String) : List String → Option (Command × String)
  | [] => some (c, path)
  | w :: ws =>
    match findNext c w with
    | some d => walk d (path ++ " " ++ d.Name) ws
    | none => none

/-- The error that `main` printed before `os.Exit(1)`, if any -/
def Result.err (r : Result) : Option Err :=
  r.stderr.findSome? (fun ch => match ch with
    | Chunk.mainErr e => some e
    | _ => none)

/-- What a run that failed with the error `e` on the command at `path` leaves behind -/
def failure (e : Err) (path : String) : Result :=
  ⟨[], [Chunk.errorLine e, Chunk.usage path, Chunk.mainErr e], 1⟩

/-- What a run whose handler printed `out` leaves behind -/
def success (out : String) : Result := ⟨[Chunk.text out], [], 0⟩

/-- The command words of the five commands declared with `ExactArgs(1)`, each with the
fixed text its handler prints before the argument -/
def oneArgCommands : List (List String × String) :=
  [(["task", "add"], "Adding task: "),
   (["task", "show"], "Showing task: "),
   (["task", "start"], "Starting task: "),
   (["task", "done"], "Completing task: "),
   (["skill", "run"], "Running skill: ")]

/-- The command words of the five commands declared without `Args`, each with the line
its handler prints -/
def noArgCommands : List (List String × String) :=
  [(["init"], "Initializing agentmine...\n"),
   (["task", "list"], "Listing tasks...\n"),
   (["agent", "list"], "Listing agents...\n"),
   (["skill", "list"], "Listing skills...\n"),
   (["ui"], "Starting web UI on http://localhost:3333\n")]

/-- The three group verbs, each with the names of its registered sub-verbs -/
def groupVerbs : List (String × List String) :=
  [("task", ["add", "list", "show", "start", "done"]),
   ("agent", ["list", "run"]),
   ("skill", ["list", "run"])]

/-- The command path of a list of command words under the root -/
def pathOf (words : List String) : String :=
  words.foldl (fun p w => p ++ " " ++ w) "agentmine"

/-- The names and aliases of the top-level commands when `ExecuteC` looks the command
up: the five of `main.go`, then `help`, `completion` and the hidden `__complete` -/
def topLevelNames : List String :=
  ["init", "task", "agent", "skill", "ui", "help", "completion", "__complete",
   "__completeNoDesc"]

/-- What a run leaves behind when the root rejects the command word `w` -/
def unknownCommandFailure (w : String) : Result :=
  ⟨[], [Chunk.errorLine (Err.unknownCommand w "agentmine"), Chunk.runHelpHint "agentmine",
        Chunk.mainErr (Err.unknownCommand w "agentmine")], 1⟩

/-- The validator of `c` is absent or one of the count validators used on this tree:
`ExactArgs(1)`, `MinimumNArgs(n)` or `NoArgs` -/
def CountValidator (c : Command) : Prop :=
  c.Args = none ∨ c.Args = some (ExactArgs 1) ∨ (∃ n, c.Args = some (MinimumNArgs n)) ∨
    c.Args = some NoArgs

/-- Every command of the tree under `c` has a count validator or none -/
inductive AllCount : Command → Prop where
  | intro (c : Command) : CountValidator c → (∀ d ∈ c.commands, AllCount d) → AllCount c

/-- The flag set that `execute` parses with on the command `c` -/
def flagsOf (c : Command) : List Flag := InitDefaultVersionFlag c (InitDefaultHelpFlag c.flags)

/-- The handler of `c` is guarded: on every argument list that `ValidateArgs` accepts,
no index expression of its `RunE` closure is out of range -/
def SafeCmd (c : Command) : Prop :=
  ∀ f, c.RunE = some (Handler.runE f) →
    ∀ (path : String) (args : List String), ValidateArgs c path args = none →
      (f args).isSome = true

/-- Every command of the tree under `c` is guarded -/
inductive AllSafe : Command → Prop where
  | intro (c : Command) : SafeCmd c → (∀ d ∈ c.commands, AllSafe d) → AllSafe c

/-! ## Strings and flags -/

theorem hasPrefix_dash (s : String) :
    HasPrefix s "-" = true ↔ ∃ t, s.data = '-' :: t := by
  unfold HasPrefix
  show (['-'].isPrefixOf s.data) = true ↔ _
  cases h : s.data with
  | nil => simp
  | cons c t => simp [List.isPrefixOf]; exact eq_comm

theorem hasPrefix_dashdash (s : String) (h : HasPrefix s "-" = false) :
    HasPrefix s "--" = false := by
  cases hp : HasPrefix s "--" with
  | false => rfl
  | true =>
    have : HasPrefix s "-" = true := by
      rw [hasPrefix_dash]
      unfold HasPrefix at hp
      change (['-', '-'].isPrefixOf s.data) = true at hp
      cases hs : s.data with
      | nil => simp [hs] at hp
      | cons c t =>
        rw [hs] at hp
        simp [List.isPrefixOf] at hp
        exact ⟨t, by rw [hp.1]⟩
    rw [this] at h; cases h

theorem isFlag_of_not_hasPrefix (s : String) (h : HasPrefix s "-" = false) :
    isFlag s = false := by
  cases hf : isFlag s with
  | false => rfl
  | true =>
    have : HasPrefix s "-" = true := by
      rw [hasPrefix_dash]
      unfold isFlag at hf
      split at hf
      · next t _ heq => exact ⟨_, heq⟩
      · cases hf
    rw [this] at h; cases h

theorem takesValue_word (fs : List Flag) (s : String) (h : HasPrefix s "-" = false) :
    takesValue fs s = false := by
  simp [takesValue, h, hasPrefix_dashdash s h]

theorem ne_dashdash_of_word (s : String) (h : HasPrefix s "-" = false) : s ≠ "--" := by
  intro hs
  rw [hs] at h
  exact absurd h (by decide)

theorem stripFlags_cons_word (fs : List Flag) (w : String) (args : List String)
    (h1 : w ≠ "") (h2 : HasPrefix w "-" = false) :
    stripFlags fs (w :: args) = w :: stripFlags fs args := by
  rw [stripFlags.eq_def]
  simp [ne_dashdash_of_word w h2, takesValue_word fs w h2, h1, h2]

theorem argsMinusFirstX_cons_word (fs : List Flag) (w : String) (args : List String)
    (h2 : HasPrefix w "-" = false) :
    argsMinusFirstX fs w (w :: args) = args := by
  rw [argsMinusFirstX.eq_def]
  simp [ne_dashdash_of_word w h2, takesValue_word fs w h2, h2]

/-! ## Command lookup -/

theorem innerfind_eq (c : Command) (path : String) (hp : Bool) (innerArgs : List String) :
    innerfind c path hp innerArgs =
      match stripFlags c.flags innerArgs with
      | [] => ⟨c, path, hp, innerArgs⟩
      | nextSubCmd :: _ =>
        match innerfindNext c.commands path nextSubCmd
            (argsMinusFirstX c.flags nextSubCmd innerArgs) with
        | some r => r
        | none => ⟨c, path, hp, innerArgs⟩ := by
  cases c
  rw [innerfind]

theorem innerfindNext_eq (cs : List Command) (path next : String) (rest : List String) :
    innerfindNext cs path next rest =
      (cs.find? (fun cmd => cmd.Name == next || cmd.HasAlias next)).map
        (fun cmd => innerfind cmd (path ++ " " ++ cmd.Name) true rest) := by
  induction cs with
  | nil => simp [innerfindNext]
  | cons cmd cmds ih =>
    rw [innerfindNext, List.find?_cons]
    by_cases h : (cmd.Name == next || cmd.HasAlias next) = true
    · simp [h]
    · simp only [h, Bool.false_eq_true, ↓reduceIte]
      rw [ih]

theorem innerfind_word (c : Command) (path : String) (hp : Bool) (w : String)
    (args : List String) (h1 : w ≠ "") (h2 : HasPrefix w "-" = false) :
    innerfind c path hp (w :: args) =
      match findNext c w with
      | some d => innerfind d (path ++ " " ++ d.Name) true args
      | none => ⟨c, path, hp, w :: args⟩ := by
  rw [innerfind_eq, stripFlags_cons_word _ _ _ h1 h2]
  simp only [argsMinusFirstX_cons_word _ _ _ h2, innerfindNext_eq, findNext]
  cases List.find? (fun cmd => cmd.Name == w || cmd.HasAlias w) c.commands <;> rfl

theorem innerfind_leaf (c : Command) (path : String) (hp : Bool) (args : List String)
    (h : c.commands = []) : innerfind c path hp args = ⟨c, path, hp, args⟩ := by
  rw [innerfind_eq, h]
  cases stripFlags c.flags args <;> simp [innerfindNext]

/-- Following command words (non-empty, not starting with "-") through `innerfind`
is following them through `walk` -/
theorem innerfind_walk (words : List String) :
    ∀ (c : Command) (path : String) (hp : Bool) (args : List String) (d : Command)
      (p : String), (∀ w ∈ words, w ≠ "" ∧ HasPrefix w "-" = false) →
      walk c path words = some (d, p) →
      innerfind c path hp (words ++ args) = innerfind d p (hp || !words.isEmpty) args := by
  induction words with
  | nil =>
    intro c path hp args d p _ hw
    simp [walk] at hw
    simp [hw.1, hw.2]
  | cons w ws ih =>
    intro c path hp args d p hwords hw
    have hw1 := hwords w (List.mem_cons_self _ _)
    rw [List.cons_append, innerfind_word _ _ _ _ _ hw1.1 hw1.2]
    rw [walk] at hw
    cases hf : findNext c w with
    | none => rw [hf] at hw; cases hw
    | some e =>
      rw [hf] at hw
      simp only at hw ⊢
      rw [ih e _ true args d p (fun x hx => hwords x (List.mem_cons_of_mem _ hx)) hw]
      simp

theorem Find_leaf (root : Command) (words args : List String) (d : Command) (p : String)
    (hwords : ∀ w ∈ words, w ≠ "" ∧ HasPrefix w "-" = false)
    (hwalk : walk root root.Name words = some (d, p)) (hleaf : d.commands = []) :
    Find root (words ++ args) = (⟨d, p, !words.isEmpty, args⟩, none) := by
  unfold Find
  rw [innerfind_walk words root root.Name false args d p hwords hwalk,
    innerfind_leaf d p _ args hleaf]
  simp [legacyArgsValidation, Command.HasSubCommands, hleaf]

theorem initCompleteCmd_leaf (words args : List String) (d : Command) (p : String)
    (hwords : ∀ w ∈ words, w ≠ "" ∧ HasPrefix w "-" = false)
    (hwalk : walk (fullRoot.AddCommand completeCmd) "agentmine" words = some (d, p))
    (hleaf : d.commands = []) (hname : d.Name ≠ "__complete") :
    initCompleteCmd fullRoot (words ++ args) = fullRoot := by
  unfold initCompleteCmd
  simp only
  rw [Find_leaf (fullRoot.AddCommand completeCmd) words args d p hwords hwalk hleaf]
  simp only [hname, ne_eq, not_false_eq_true, ↓reduceIte]
  rfl

/-! ## Flag parsing -/

theorem parseArgs_positional (fs : List Flag) (args : List String)
    (h : ∀ a ∈ args, isFlag a = false) : parseArgs fs args = .ok ([], args) := by
  induction args with
  | nil => rw [parseArgs]
  | cons s args ih =>
    have hs := h s (List.mem_cons_self _ _)
    have ih := ih (fun a ha => h a (List.mem_cons_of_mem _ ha))
    rw [parseArgs]
    unfold isFlag at hs
    split
    · next heq => simp [heq] at hs
    · next heq => simp [heq] at hs
    · next heq => simp [heq] at hs
    · rw [ih]; rfl

theorem parseArgs_dashdash (fs : List Flag) (args : List String) :
    parseArgs fs ("--" :: args) = .ok ([], args) := by
  rw [parseArgs]
  rfl

/-! ## Running a command of `main.go` -/

theorem execute_runE (root c : Command) (path : String) (a pos : List String)
    (f : List String → Option String)
    (hflags : c.flags = []) (hver : c.Version = "") (hdfp : c.DisableFlagParsing = false)
    (hrun : c.RunE = some (Handler.runE f))
    (hparse : parseArgs [⟨"help", some 'h'⟩] a = .ok ([], pos)) :
    execute root c path a =
      match ValidateArgs c path pos with
      | some e => Exec.error e
      | none =>
        match f pos with
        | some out => Exec.done [Chunk.text out] []
        | none => Exec.panic := by
  have hfs : InitDefaultVersionFlag c (InitDefaultHelpFlag c.flags) = [⟨"help", some 'h'⟩] := by
    simp [InitDefaultVersionFlag, InitDefaultHelpFlag, hflags, hver, Lookup]
  unfold execute
  simp only [hfs, hdfp, hparse, hver, hrun]
  simp [GetBool, runHandler]

theorem ExecuteC_eq (args : List String) :
    ExecuteC rootCmd args =
      match Find (initCompleteCmd fullRoot args) args with
      | (cmd, some err) =>
        .returned [] [Chunk.errorLine err, Chunk.runHelpHint cmd.path] (some err)
      | (cmd, none) =>
        match execute (initCompleteCmd fullRoot args) cmd.cmd cmd.path cmd.args with
        | .errHelp => .returned [Chunk.help cmd.path] [] none
        | .error err => .returned [] [Chunk.errorLine err, Chunk.usage cmd.path] (some err)
        | .done out errOut => .returned out errOut none
        | .panic => .panic := rfl

/-- The run of a command of `main.go` reached by the command words `words`, when the
remaining arguments `a` parse to the positional arguments `pos` without any flag -/
theorem main_runE (words a pos : List String) (d : Command) (p : String)
    (f : List String → Option String)
    (hwords : ∀ w ∈ words, w ≠ "" ∧ HasPrefix w "-" = false)
    (hwalk1 : walk (fullRoot.AddCommand completeCmd) "agentmine" words = some (d, p))
    (hwalk : walk fullRoot "agentmine" words = some (d, p))
    (hleaf : d.commands = []) (hname : d.Name ≠ "__complete")
    (hflags : d.flags = []) (hver : d.Version = "") (hdfp : d.DisableFlagParsing = false)
    (hrun : d.RunE = some (Handler.runE f))
    (hparse : parseArgs [⟨"help", some 'h'⟩] a = .ok ([], pos)) :
    main (words ++ a) =
      match ValidateArgs d p pos with
      | some e => failure e p
      | none =>
        match f pos with
        | some out => success out
        | none => ⟨[], [Chunk.panicTrace], 2⟩ := by
  unfold main
  rw [ExecuteC_eq, initCompleteCmd_leaf words a d p hwords hwalk1 hleaf hname,
    Find_leaf fullRoot words a d p hwords hwalk hleaf]
  simp only
  rw [execute_runE fullRoot d p a pos f hflags hver hdfp hrun hparse]
  cases ValidateArgs d p pos with
  | some e => rfl
  | none =>
    cases f pos with
    | some out => rfl
    | none => rfl

theorem main_oneArg (c : List String × String) (hc : c ∈ oneArgCommands)
    (a pos : List String) (hparse : parseArgs [⟨"help", some 'h'⟩] a = .ok ([], pos)) :
    main (c.1 ++ a) =
      match pos with
      | [s] => success (c.2 ++ s ++ "\n")
      | _ => failure (Err.exactArgs 1 pos.length) (pathOf c.1) := by
  simp only [oneArgCommands, List.mem_cons, List.mem_singleton, List.not_mem_nil,
    or_false] at hc
  rcases hc with rfl | rfl | rfl | rfl | rfl
  · rw [main_runE ["task", "add"] a pos taskAdd "agentmine task add" _ (by decide) rfl rfl
      rfl (by decide) rfl rfl rfl rfl hparse]
    match pos with
    | [] => rfl
    | [s] => rfl
    | _ :: _ :: _ => rfl
  · rw [main_runE ["task", "show"] a pos taskShow "agentmine task show" _ (by decide) rfl rfl
      rfl (by decide) rfl rfl rfl rfl hparse]
    match pos with
    | [] => rfl
    | [s] => rfl
    | _ :: _ :: _ => rfl
  · rw [main_runE ["task", "start"] a pos taskStart "agentmine task start" _ (by decide) rfl
      rfl rfl (by decide) rfl rfl rfl rfl hparse]
    match pos with
    | [] => rfl
    | [s] => rfl
    | _ :: _ :: _ => rfl
  · rw [main_runE ["task", "done"] a pos taskDone "agentmine task done" _ (by decide) rfl rfl
      rfl (by decide) rfl rfl rfl rfl hparse]
    match pos with
    | [] => rfl
    | [s] => rfl
    | _ :: _ :: _ => rfl
  · rw [main_runE ["skill", "run"] a pos skillRun "agentmine skill run" _ (by decide) rfl rfl
      rfl (by decide) rfl rfl rfl rfl hparse]
    match pos with
    | [] => rfl
    | [s] => rfl
    | _ :: _ :: _ => rfl

theorem main_noArg (c : List String × String) (hc : c ∈ noArgCommands)
    (a pos : List String) (hparse : parseArgs [⟨"help", some 'h'⟩] a = .ok ([], pos)) :
    main (c.1 ++ a) = success c.2 := by
  simp only [noArgCommands, List.mem_cons, List.mem_singleton, List.not_mem_nil,
    or_false] at hc
  rcases hc with rfl | rfl | rfl | rfl | rfl
  · rw [main_runE ["init"] a pos initCmd "agentmine init" _ (by decide) rfl rfl
      rfl (by decide) rfl rfl rfl rfl hparse]
    rfl
  · rw [main_runE ["task", "list"] a pos taskList "agentmine task list" _ (by decide) rfl rfl
      rfl (by decide) rfl rfl rfl rfl hparse]
    rfl
  · rw [main_runE ["agent", "list"] a pos agentList "agentmine agent list" _ (by decide) rfl
      rfl rfl (by decide) rfl rfl rfl rfl hparse]
    rfl
  · rw [main_runE ["skill", "list"] a pos skillList "agentmine skill list" _ (by decide) rfl
      rfl rfl (by decide) rfl rfl rfl rfl hparse]
    rfl
  · rw [main_runE ["ui"] a pos uiCmd "agentmine ui" _ (by decide) rfl rfl
      rfl (by decide) rfl rfl rfl rfl hparse]
    rfl

theorem main_agentRun (a pos : List String)
    (hparse : parseArgs [⟨"help", some 'h'⟩] a = .ok ([], pos)) :
    main (["agent", "run"] ++ a) =
      match pos with
      | name :: prompt :: _ =>
        success ("Running agent " ++ name ++ " with prompt: " ++ prompt ++ "\n")
      | _ => failure (Err.minimumNArgs 2 pos.length) "agentmine agent run" := by
  rw [main_runE ["agent", "run"] a pos agentRun "agentmine agent run" _ (by decide) rfl rfl
    rfl (by decide) rfl rfl rfl rfl hparse]
  match pos with
  | [] => rfl
  | [s] => rfl
  | _ :: _ :: t =>
    have h : ¬ (t.length + 1 + 1 < 2) := by omega
    simp [ValidateArgs, agentRun, MinimumNArgs, h]

/-! ## No handler indexes out of range -/

theorem execute_ne_panic (root c : Command) (path : String) (a : List String)
    (hs : SafeCmd c) : execute root c path a ≠ Exec.panic := by
  unfold execute
  simp only
  split
  · simp
  · split
    · simp
    · split
      · simp
      · split
        · simp
        · next h hrun =>
          split
          · simp
          · next hval =>
            cases h with
            | runE f =>
              have := hs f hrun path _ hval
              unfold runHandler
              simp only
              split
              · simp
              · next hnone => rw [hnone] at this; cases this
            | helpCmd =>
              unfold runHandler
              simp only
              split <;> simp
            | genCompletion shell => simp [runHandler]
            | complete => simp [runHandler]

theorem innerfind_safe (c : Command) (h : AllSafe c) :
    ∀ (path : String) (hp : Bool) (args : List String),
      SafeCmd (innerfind c path hp args).cmd := by
  induction h with
  | intro c hs _ ih =>
    intro path hp args
    rw [innerfind_eq]
    split
    · exact hs
    · rw [innerfindNext_eq]
      cases hfind : List.find? _ c.commands with
      | none => exact hs
      | some d => exact ih d (List.mem_of_find?_eq_some hfind) _ _ _

theorem Find_cmd (c : Command) (args : List String) :
    (Find c args).1 = innerfind c c.Name false args := by
  unfold Find
  simp only
  split <;> rfl

theorem AllSafe_leaf (c : Command) (hleaf : c.commands = []) (hs : SafeCmd c) :
    AllSafe c :=
  AllSafe.intro c hs (by rw [hleaf]; intro d hd; cases hd)

theorem AllSafe_AddCommand (c x : Command) (hc : AllSafe c) (hx : AllSafe x) :
    AllSafe (c.AddCommand x) := by
  cases hc with
  | intro _ hs hsub =>
    refine AllSafe.intro _ hs ?_
    intro d hd
    simp only [Command.AddCommand, List.mem_append, List.mem_singleton] at hd
    rcases hd with hd | rfl
    · exact hsub d hd
    · exact hx

theorem AllSafe_RemoveCommand (c : Command) (name : String) (hc : AllSafe c) :
    AllSafe (c.RemoveCommand name) := by
  cases hc with
  | intro _ hs hsub =>
    refine AllSafe.intro _ hs ?_
    intro d hd
    simp only [Command.RemoveCommand, List.mem_filter] at hd
    exact hsub d hd.1

theorem SafeCmd_of_not_runE (c : Command) (h : ∀ f, c.RunE ≠ some (Handler.runE f)) :
    SafeCmd c := fun f hf => absurd hf (h f)

theorem SafeCmd_const (c : Command) (out : String)
    (h : c.RunE = some (Handler.runE fun _ => some out)) : SafeCmd c := by
  intro f hf path args _
  rw [h] at hf
  injection hf with hf
  injection hf with hf
  rw [← hf]
  rfl

theorem SafeCmd_exact1 (c : Command) (g : String → String)
    (hargs : c.Args = some (ExactArgs 1))
    (h : c.RunE = some (Handler.runE fun args => do
      let a0 ← args[0]?
      pure (g a0))) : SafeCmd c := by
  intro f hf path args hval
  rw [h] at hf
  injection hf with hf
  injection hf with hf
  rw [← hf]
  simp only [ValidateArgs, hargs, ExactArgs] at hval
  match args, hval with
  | [], hval => simp at hval
  | a :: _, _ => simp

theorem SafeCmd_agentRun : SafeCmd agentRun := by
  intro f hf path args hval
  simp only [agentRun] at hf
  injection hf with hf
  injection hf with hf
  rw [← hf]
  simp only [ValidateArgs, agentRun, MinimumNArgs] at hval
  match args, hval with
  | [], hval => simp at hval
  | [_], hval => simp at hval
  | _ :: _ :: _, _ => simp

theorem AllSafe_taskCmd : AllSafe taskCmd := by
  unfold taskCmd
  refine AllSafe_AddCommand _ _ (AllSafe_AddCommand _ _ (AllSafe_AddCommand _ _
    (AllSafe_AddCommand _ _ (AllSafe_AddCommand _ _ ?_ ?_) ?_) ?_) ?_) ?_
  · exact AllSafe_leaf _ rfl (SafeCmd_of_not_runE _ (fun f h => by cases h))
  · exact AllSafe_leaf _ rfl (SafeCmd_exact1 _ (fun a => "Adding task: " ++ a ++ "\n") rfl rfl)
  · exact AllSafe_leaf _ rfl (SafeCmd_const _ _ rfl)
  · exact AllSafe_leaf _ rfl (SafeCmd_exact1 _ (fun a => "Showing task: " ++ a ++ "\n") rfl rfl)
  · exact AllSafe_leaf _ rfl (SafeCmd_exact1 _ (fun a => "Starting task: " ++ a ++ "\n") rfl rfl)
  · exact AllSafe_leaf _ rfl
      (SafeCmd_exact1 _ (fun a => "Completing task: " ++ a ++ "\n") rfl rfl)

theorem AllSafe_agentCmd : AllSafe agentCmd := by
  unfold agentCmd
  refine AllSafe_AddCommand _ _ (AllSafe_AddCommand _ _ ?_ ?_) ?_
  · exact AllSafe_leaf _ rfl (SafeCmd_of_not_runE _ (fun f h => by cases h))
  · exact AllSafe_leaf _ rfl (SafeCmd_const _ _ rfl)
  · exact AllSafe_leaf _ rfl SafeCmd_agentRun

theorem AllSafe_skillCmd : AllSafe skillCmd := by
  unfold skillCmd
  refine AllSafe_AddCommand _ _ (AllSafe_AddCommand _ _ ?_ ?_) ?_
  · exact AllSafe_leaf _ rfl (SafeCmd_of_not_runE _ (fun f h => by cases h))
  · exact AllSafe_leaf _ rfl (SafeCmd_const _ _ rfl)
  · exact AllSafe_leaf _ rfl (SafeCmd_exact1 _ (fun a => "Running skill: " ++ a ++ "\n") rfl rfl)

theorem AllSafe_rootCmd : AllSafe rootCmd := by
  unfold rootCmd
  refine AllSafe_AddCommand _ _ (AllSafe_AddCommand _ _ (AllSafe_AddCommand _ _
    (AllSafe_AddCommand _ _ (AllSafe_AddCommand _ _ ?_ ?_) ?_) ?_) ?_) ?_
  · exact AllSafe_leaf _ rfl (SafeCmd_of_not_runE _ (fun f h => by cases h))
  · exact AllSafe_leaf _ rfl (SafeCmd_const _ _ rfl)
  · exact AllSafe_taskCmd
  · exact AllSafe_agentCmd
  · exact AllSafe_skillCmd
  · exact AllSafe_leaf _ rfl (SafeCmd_const _ _ rfl)

theorem AllSafe_completionCmd : AllSafe completionCmd := by
  unfold completionCmd
  refine AllSafe_AddCommand _ _ (AllSafe_AddCommand _ _ (AllSafe_AddCommand _ _
    (AllSafe_AddCommand _ _ ?_ ?_) ?_) ?_) ?_
  all_goals exact AllSafe_leaf _ rfl (SafeCmd_of_not_runE _ (fun f h => by cases h))

theorem AllSafe_fullRoot : AllSafe fullRoot := by
  have h : fullRoot =
      ((rootCmd.RemoveCommand helpCommand.Name).AddCommand helpCommand).AddCommand
        completionCmd := rfl
  rw [h]
  refine AllSafe_AddCommand _ _ (AllSafe_AddCommand _ _
    (AllSafe_RemoveCommand _ _ AllSafe_rootCmd) ?_) AllSafe_completionCmd
  exact AllSafe_leaf _ rfl (SafeCmd_of_not_runE _ (fun f h => by cases h))

theorem AllSafe_initCompleteCmd (args : List String) :
    AllSafe (initCompleteCmd fullRoot args) := by
  have h1 : AllSafe (fullRoot.AddCommand completeCmd) :=
    AllSafe_AddCommand _ _ AllSafe_fullRoot
      (AllSafe_leaf _ rfl (SafeCmd_of_not_runE _ (fun f h => by cases h)))
  unfold initCompleteCmd
  simp only
  split
  · exact AllSafe_RemoveCommand _ _ h1
  · split
    · exact AllSafe_RemoveCommand _ _ h1
    · exact h1

theorem ExecuteC_ne_panic (args : List String) :
    ExecuteC rootCmd args ≠ Executed.panic := by
  rw [ExecuteC_eq]
  split
  · simp
  · next cmd heq =>
    have hc : cmd = innerfind (initCompleteCmd fullRoot args)
        (initCompleteCmd fullRoot args).Name false args := by
      rw [← Find_cmd, heq]
    have hsafe : SafeCmd cmd.cmd := by
      rw [hc]
      exact innerfind_safe _ (AllSafe_initCompleteCmd args) _ _ _
    have := execute_ne_panic (initCompleteCmd fullRoot args) cmd.cmd cmd.path cmd.args hsafe
    split <;> simp_all

/-- Every run ends with status 0 or 1; with status 1 nothing was written to standard
output, and standard error holds the error line, the usage (or the hint to run
`--help`) and the line that `main` prints -/
theorem main_cases (args : List String) :
    (∃ out errOut, main args = ⟨out, errOut, 0⟩) ∨
    (∃ e p, main args =
      ⟨[], [Chunk.errorLine e, Chunk.runHelpHint p, Chunk.mainErr e], 1⟩) ∨
    (∃ e p, main args = failure e p) := by
  have hp := ExecuteC_ne_panic args
  unfold main
  rw [ExecuteC_eq] at hp ⊢
  split at hp
  · exact Or.inr (Or.inl ⟨_, _, rfl⟩)
  · split at hp
    · exact Or.inl ⟨_, _, rfl⟩
    · exact Or.inr (Or.inr ⟨_, _, rfl⟩)
    · exact Or.inl ⟨_, _, rfl⟩
    · exact absurd rfl hp

/-! ## Words that name no command -/

theorem findNext_none (c : Command) (w : String) (names : List String)
    (hnames : ∀ d ∈ c.commands, d.Name ∈ names ∧ ∀ a ∈ d.Aliases, a ∈ names)
    (hw : w ∉ names) : findNext c w = none := by
  unfold findNext
  rw [List.find?_eq_none]
  intro d hd hp
  have hn := hnames d hd
  simp [Command.HasAlias] at hp
  rcases hp with hp | hp
  · exact hw (hp ▸ hn.1)
  · exact hw (hn.2 w hp)

theorem innerfind_unknown (c : Command) (path : String) (hp : Bool) (w : String)
    (rest : List String) (h1 : w ≠ "") (h2 : HasPrefix w "-" = false)
    (hnone : findNext c w = none) :
    innerfind c path hp (w :: rest) = ⟨c, path, hp, w :: rest⟩ := by
  rw [innerfind_word c path hp w rest h1 h2, hnone]

theorem innerfind_empty_word (c : Command) (path : String) (hp : Bool) :
    innerfind c path hp [""] = ⟨c, path, hp, [""]⟩ := by
  have h : stripFlags c.flags [""] = [] := by
    rw [stripFlags.eq_def]
    have ht : takesValue c.flags "" = false := takesValue_word _ _ (by decide)
    simp [ht, stripFlags]
  rw [innerfind_eq, h]

theorem Find_unknown (root : Command) (w : String) (rest : List String)
    (hargs : root.Args = none) (hsub : root.HasSubCommands = true)
    (h1 : w ≠ "") (h2 : HasPrefix w "-" = false) (hnone : findNext root w = none) :
    Find root (w :: rest) =
      (⟨root, root.Name, false, w :: rest⟩, some (Err.unknownCommand w root.Name)) := by
  unfold Find
  rw [innerfind_unknown root _ _ w rest h1 h2 hnone]
  simp [hargs, legacyArgsValidation, hsub, stripFlags_cons_word _ _ _ h1 h2]

theorem main_unknown (w : String) (rest : List String) (h1 : w ≠ "")
    (h2 : HasPrefix w "-" = false) (hw : w ∉ topLevelNames) :
    main (w :: rest) = unknownCommandFailure w := by
  have hn1 : findNext (fullRoot.AddCommand completeCmd) w = none :=
    findNext_none _ w topLevelNames (by decide) hw
  have hn : findNext fullRoot w = none := findNext_none _ w topLevelNames (by decide) hw
  have hinit : initCompleteCmd fullRoot (w :: rest) = fullRoot := by
    unfold initCompleteCmd
    simp only
    rw [Find_unknown (fullRoot.AddCommand completeCmd) w rest rfl rfl h1 h2 hn1]
    rfl
  unfold main
  rw [ExecuteC_eq, hinit, Find_unknown fullRoot w rest rfl rfl h1 h2 hn]
  rfl

/-- A command without `Run`, reached by the command words `words`, that is given one
more word `w` which names none of its subcommands: the help of that command is shown -/
theorem main_notRunnable (words : List String) (w : String) (d : Command) (p : String)
    (hwords : ∀ x ∈ words, x ≠ "" ∧ HasPrefix x "-" = false) (hne : words.isEmpty = false)
    (hwalk1 : walk (fullRoot.AddCommand completeCmd) "agentmine" words = some (d, p))
    (hwalk : walk fullRoot "agentmine" words = some (d, p))
    (hw : HasPrefix w "-" = false) (hnone : findNext d w = none)
    (hname : d.Name ≠ "__complete") (hflags : d.flags = []) (hver : d.Version = "")
    (hdfp : d.DisableFlagParsing = false) (hrun : d.RunE = none) (hargs : d.Args = none) :
    main (words ++ [w]) = ⟨[Chunk.help p], [], 0⟩ := by
  have hfound : ∀ root : Command, walk root root.Name words = some (d, p) →
      Find root (words ++ [w]) = (⟨d, p, true, [w]⟩, none) := by
    intro root hwk
    unfold Find
    rw [innerfind_walk words root root.Name false [w] d p hwords hwk]
    have : innerfind d p (false || !words.isEmpty) [w] = ⟨d, p, true, [w]⟩ := by
      rw [hne]
      by_cases h1 : w = ""
      · rw [h1]; exact innerfind_empty_word d p _
      · exact innerfind_unknown d p _ w [] h1 hw hnone
    rw [this]
    simp [hargs, legacyArgsValidation]
  have hinit : initCompleteCmd fullRoot (words ++ [w]) = fullRoot := by
    unfold initCompleteCmd
    simp only
    rw [hfound (fullRoot.AddCommand completeCmd) hwalk1]
    simp only [hname, ne_eq, not_false_eq_true, ↓reduceIte]
    rfl
  have hparse : parseArgs [⟨"help", some 'h'⟩] [w] = .ok ([], [w]) :=
    parseArgs_positional _ _ (by
      intro a ha
      rw [List.mem_singleton] at ha
      rw [ha]
      exact isFlag_of_not_hasPrefix w hw)
  have hfs : InitDefaultVersionFlag d (InitDefaultHelpFlag d.flags) = [⟨"help", some 'h'⟩] := by
    simp [InitDefaultVersionFlag, InitDefaultHelpFlag, hflags, hver, Lookup]
  have hexec : execute fullRoot d p [w] = Exec.errHelp := by
    unfold execute
    simp only [hfs, hdfp, hparse, hver, hrun]
    simp [GetBool]
  unfold main
  rw [ExecuteC_eq, hinit, hfound fullRoot hwalk]
  simp only [hexec]

/-! ## Why a run fails -/

theorem setFlag_error (flag : Flag) (value : String) (e : Err)
    (h : setFlag flag value = .error e) : e.isFlagError = true := by
  unfold setFlag at h
  split at h
  · cases h
  · injection h with h
    rw [← h]
    rfl

theorem parseLongArg_error (fs : List Flag) (name : List Char) (e : Err)
    (h : parseLongArg fs name = .error e) : e.isFlagError = true := by
  unfold parseLongArg at h
  split at h
  · injection h with h
    rw [← h]
    rfl
  · split at h
    · injection h with h
      rw [← h]
      rfl
    · simp only at h
      split at h
      · injection h with h
        rw [← h]
        rfl
      · split at h <;> exact setFlag_error _ _ _ h

theorem parseShortArg_error (fs : List Flag) (e : Err) :
    ∀ shorthands : List Char, parseShortArg fs shorthands = .error e →
      e.isFlagError = true := by
  intro shorthands
  induction shorthands with
  | nil => intro h; rw [parseShortArg] at h; cases h
  | cons c rest ih =>
    intro h
    rw [parseShortArg] at h
    split at h
    · cases h
    · split at h
      · injection h with h
        rw [← h]
        rfl
      · next flag _ =>
        split at h
        · cases hs : setFlag flag (String.mk _) with
          | error e' =>
            rw [hs] at h
            simp only [Except.map] at h
            injection h with h
            rw [← h]
            exact setFlag_error _ _ _ hs
          | ok x =>
            rw [hs] at h
            simp only [Except.map] at h
            cases h
        · cases hs : setFlag flag "true" with
          | error e' =>
            rw [hs] at h
            simp only [bind, Except.bind] at h
            injection h with h
            rw [← h]
            exact setFlag_error _ _ _ hs
          | ok x =>
            rw [hs] at h
            simp only [bind, Except.bind] at h
            cases hr : parseShortArg fs rest with
            | error e' =>
              rw [hr] at h
              simp only at h
              injection h with h
              subst h
              exact ih hr
            | ok xs =>
              rw [hr] at h
              simp only [pure, Except.pure] at h
              cases h

theorem parseArgs_error (fs : List Flag) (e : Err) :
    ∀ args : List String, parseArgs fs args = .error e → e.isFlagError = true := by
  intro args
  induction args with
  | nil => intro h; rw [parseArgs] at h; cases h
  | cons s args ih =>
    intro h
    rw [parseArgs] at h
    split at h
    · cases h
    · next name _ _ =>
      cases hl : parseLongArg fs name with
      | error e' =>
        rw [hl] at h
        simp only [bind, Except.bind] at h
        injection h with h
        rw [← h]
        exact parseLongArg_error _ _ _ hl
      | ok x =>
        rw [hl] at h
        simp only [bind, Except.bind] at h
        cases hr : parseArgs fs args with
        | error e' =>
          rw [hr] at h
          simp only at h
          injection h with h
          subst h
          exact ih hr
        | ok y =>
          rw [hr] at h
          simp only [pure, Except.pure] at h
          cases h
    · next c shorthands _ _ _ =>
      cases hl : parseShortArg fs (c :: shorthands) with
      | error e' =>
        rw [hl] at h
        simp only [bind, Except.bind] at h
        injection h with h
        rw [← h]
        exact parseShortArg_error _ _ _ hl
      | ok x =>
        rw [hl] at h
        simp only [bind, Except.bind] at h
        cases hr : parseArgs fs args with
        | error e' =>
          rw [hr] at h
          simp only at h
          injection h with h
          subst h
          exact ih hr
        | ok y =>
          rw [hr] at h
          simp only [pure, Except.pure] at h
          cases h
    · cases hr : parseArgs fs args with
      | error e' =>
        rw [hr] at h
        simp only [bind, Except.bind] at h
        injection h with h
        subst h
        exact ih hr
      | ok y =>
        rw [hr] at h
        simp only [bind, Except.bind, pure, Except.pure] at h
        cases h

theorem execute_error (root c : Command) (path : String) (a : List String) (e : Err)
    (h : execute root c path a = Exec.error e) :
    (c.DisableFlagParsing = false ∧ parseArgs (flagsOf c) a = .error e) ∨
    (∃ pos, ((c.DisableFlagParsing = true ∧ pos = a) ∨
        (c.DisableFlagParsing = false ∧ ∃ vals, parseArgs (flagsOf c) a = .ok (vals, pos))) ∧
      ValidateArgs c path pos = some e) := by
  have hrun : ∀ (hd : Handler) (pos : List String), runHandler root hd pos ≠ Exec.error e := by
    intro hd pos
    cases hd with
    | runE f =>
      unfold runHandler
      simp only
      split <;> simp
    | helpCmd =>
      unfold runHandler
      simp only
      split <;> simp
    | genCompletion shell => simp [runHandler]
    | complete => simp [runHandler]
  unfold execute at h
  simp only at h
  cases hd : c.DisableFlagParsing with
  | true =>
    simp only [hd, ↓reduceIte] at h
    split at h
    · cases h
    · split at h
      · cases h
      · split at h
        · cases h
        · split at h
          · injection h with h
            subst h
            exact Or.inr ⟨a, Or.inl ⟨rfl, rfl⟩, by assumption⟩
          · exact absurd h (hrun _ _)
  | false =>
    simp only [hd, Bool.false_eq_true, ↓reduceIte] at h
    cases hp : parseArgs (InitDefaultVersionFlag c (InitDefaultHelpFlag c.flags)) a with
    | error e' =>
      rw [hp] at h
      simp only at h
      injection h with h
      subst h
      exact Or.inl ⟨rfl, hp⟩
    | ok x =>
      obtain ⟨vals, pos⟩ := x
      rw [hp] at h
      simp only at h
      split at h
      · cases h
      · split at h
        · cases h
        · split at h
          · cases h
          · split at h
            · injection h with h
              subst h
              exact Or.inr ⟨pos, Or.inr ⟨rfl, vals, hp⟩, by assumption⟩
            · exact absurd h (hrun _ _)

theorem ValidateArgs_count (c : Command) (path : String) (pos : List String) (e : Err)
    (hc : CountValidator c) (h : ValidateArgs c path pos = some e) :
    (c.Args = some (ExactArgs 1) ∧ e = Err.exactArgs 1 pos.length ∧ pos.length ≠ 1) ∨
    (∃ n, c.Args = some (MinimumNArgs n) ∧ e = Err.minimumNArgs n pos.length ∧
      pos.length < n) ∨
    (∃ a rest, c.Args = some NoArgs ∧ e = Err.unknownCommand a path ∧ pos = a :: rest) := by
  unfold ValidateArgs at h
  rcases hc with hc | hc | ⟨n, hc⟩ | hc
  · rw [hc] at h
    simp [ArbitraryArgs] at h
  · rw [hc] at h
    simp only [ExactArgs] at h
    split at h
    · injection h with h
      exact Or.inl ⟨hc, h.symm, by assumption⟩
    · cases h
  · rw [hc] at h
    simp only [MinimumNArgs] at h
    split at h
    · injection h with h
      exact Or.inr (Or.inl ⟨n, hc, h.symm, by assumption⟩)
    · cases h
  · rw [hc] at h
    simp only [NoArgs] at h
    split at h
    · next a rest =>
      injection h with h
      exact Or.inr (Or.inr ⟨a, rest, hc, h.symm, rfl⟩)
    · cases h

theorem innerfind_count (c : Command) (h : AllCount c) :
    ∀ (path : String) (hp : Bool) (args : List String),
      CountValidator (innerfind c path hp args).cmd := by
  induction h with
  | intro c hs _ ih =>
    intro path hp args
    rw [innerfind_eq]
    split
    · exact hs
    · rw [innerfindNext_eq]
      cases hfind : List.find? _ c.commands with
      | none => exact hs
      | some d => exact ih d (List.mem_of_find?_eq_some hfind) _ _ _

theorem innerfind_hasParent (c : Command) (h : AllCount c) :
    ∀ (path : String) (args : List String),
      (innerfind c path true args).hasParent = true := by
  induction h with
  | intro c _ _ ih =>
    intro path args
    rw [innerfind_eq]
    split
    · rfl
    · rw [innerfindNext_eq]
      cases hfind : List.find? _ c.commands with
      | none => rfl
      | some d => exact ih d (List.mem_of_find?_eq_some hfind) _ _

theorem innerfind_cons (c : Command) (path : String) (hp : Bool) (args : List String)
    (w : String) (rest : List String) (hs : stripFlags c.flags args = w :: rest) :
    innerfind c path hp args =
      match findNext c w with
      | some d => innerfind d (path ++ " " ++ d.Name) true (argsMinusFirstX c.flags w args)
      | none => ⟨c, path, hp, args⟩ := by
  rw [innerfind_eq, hs]
  simp only [innerfindNext_eq, findNext]
  cases List.find? (fun cmd => cmd.Name == w || cmd.HasAlias w) c.commands <;> rfl

/-- The lookup fails only at the root, on a first command word that names none of its
commands -/
theorem Find_error (root : Command) (args : List String) (found : Found) (e : Err)
    (hall : AllCount root) (h : Find root args = (found, some e)) :
    ∃ w rest, stripFlags root.flags args = w :: rest ∧
      e = Err.unknownCommand w root.Name ∧ findNext root w = none := by
  unfold Find at h
  simp only at h
  split at h
  · injection h with h1 h2
    unfold legacyArgsValidation at h2
    split at h2
    · cases h2
    · split at h2
      · next a t hpar hstrip =>
        injection h2 with h2
        cases hsf : stripFlags root.flags args with
        | nil =>
          rw [innerfind_eq, hsf] at hstrip
          simp only at hstrip
          rw [hsf] at hstrip
          cases hstrip
        | cons w rest =>
          rw [innerfind_cons root _ _ args w rest hsf] at hpar hstrip h2
          cases hfn : findNext root w with
          | none =>
            rw [hfn] at hstrip h2
            simp only at hstrip h2
            rw [hsf] at hstrip
            injection hstrip with hw _
            subst hw
            exact ⟨w, rest, rfl, h2.symm, hfn⟩
          | some d =>
            rw [hfn] at hpar
            simp only at hpar
            have hd : d ∈ root.commands := List.mem_of_find?_eq_some hfn
            cases hall with
            | intro _ _ hsub =>
              rw [innerfind_hasParent d (hsub d hd)] at hpar
              cases hpar
      · cases h2
  · injection h with _ h2
    cases h2

theorem AllCount_leaf (c : Command) (hleaf : c.commands = []) (hs : CountValidator c) :
    AllCount c :=
  AllCount.intro c hs (by rw [hleaf]; intro d hd; cases hd)

theorem AllCount_AddCommand (c x : Command) (hc : AllCount c) (hx : AllCount x) :
    AllCount (c.AddCommand x) := by
  cases hc with
  | intro _ hs hsub =>
    refine AllCount.intro _ hs ?_
    intro d hd
    simp only [Command.AddCommand, List.mem_append, List.mem_singleton] at hd
    rcases hd with hd | rfl
    · exact hsub d hd
    · exact hx

theorem AllCount_RemoveCommand (c : Command) (name : String) (hc : AllCount c) :
    AllCount (c.RemoveCommand name) := by
  cases hc with
  | intro _ hs hsub =>
    refine AllCount.intro _ hs ?_
    intro d hd
    simp only [Command.RemoveCommand, List.mem_filter] at hd
    exact hsub d hd.1

theorem AllCount_taskCmd : AllCount taskCmd := by
  unfold taskCmd
  refine AllCount_AddCommand _ _ (AllCount_AddCommand _ _ (AllCount_AddCommand _ _
    (AllCount_AddCommand _ _ (AllCount_AddCommand _ _ ?_ ?_) ?_) ?_) ?_) ?_
  · exact AllCount_leaf _ rfl (Or.inl rfl)
  · exact AllCount_leaf _ rfl (Or.inr (Or.inl rfl))
  · exact AllCount_leaf _ rfl (Or.inl rfl)
  · exact AllCount_leaf _ rfl (Or.inr (Or.inl rfl))
  · exact AllCount_leaf _ rfl (Or.inr (Or.inl rfl))
  · exact AllCount_leaf _ rfl (Or.inr (Or.inl rfl))

theorem AllCount_agentCmd : AllCount agentCmd := by
  unfold agentCmd
  refine AllCount_AddCommand _ _ (AllCount_AddCommand _ _ ?_ ?_) ?_
  · exact AllCount_leaf _ rfl (Or.inl rfl)
  · exact AllCount_leaf _ rfl (Or.inl rfl)
  · exact AllCount_leaf _ rfl (Or.inr (Or.inr (Or.inl ⟨2, rfl⟩)))

theorem AllCount_skillCmd : AllCount skillCmd := by
  unfold skillCmd
  refine AllCount_AddCommand _ _ (AllCount_AddCommand _ _ ?_ ?_) ?_
  · exact AllCount_leaf _ rfl (Or.inl rfl)
  · exact AllCount_leaf _ rfl (Or.inl rfl)
  · exact AllCount_leaf _ rfl (Or.inr (Or.inl rfl))

theorem AllCount_rootCmd : AllCount rootCmd := by
  unfold rootCmd
  refine AllCount_AddCommand _ _ (AllCount_AddCommand _ _ (AllCount_AddCommand _ _
    (AllCount_AddCommand _ _ (AllCount_AddCommand _ _ ?_ ?_) ?_) ?_) ?_) ?_
  · exact AllCount_leaf _ rfl (Or.inl rfl)
  · exact AllCount_leaf _ rfl (Or.inl rfl)
  · exact AllCount_taskCmd
  · exact AllCount_agentCmd
  · exact AllCount_skillCmd
  · exact AllCount_leaf _ rfl (Or.inl rfl)

theorem AllCount_completionCmd : AllCount completionCmd := by
  unfold completionCmd
  refine AllCount_AddCommand _ _ (AllCount_AddCommand _ _ (AllCount_AddCommand _ _
    (AllCount_AddCommand _ _ ?_ ?_) ?_) ?_) ?_
  all_goals exact AllCount_leaf _ rfl (Or.inr (Or.inr (Or.inr rfl)))

theorem AllCount_fullRoot : AllCount fullRoot := by
  have h : fullRoot =
      ((rootCmd.RemoveCommand helpCommand.Name).AddCommand helpCommand).AddCommand
        completionCmd := rfl
  rw [h]
  refine AllCount_AddCommand _ _ (AllCount_AddCommand _ _
    (AllCount_RemoveCommand _ _ AllCount_rootCmd) ?_) AllCount_completionCmd
  exact AllCount_leaf _ rfl (Or.inl rfl)

theorem AllCount_withComplete : AllCount (fullRoot.AddCommand completeCmd) :=
  AllCount_AddCommand _ _ AllCount_fullRoot
    (AllCount_leaf _ rfl (Or.inr (Or.inr (Or.inl ⟨1, rfl⟩))))

theorem initCompleteCmd_cases (args : List String) :
    (initCompleteCmd fullRoot args = fullRoot ∧
      ∀ sub, Find (fullRoot.AddCommand completeCmd) args = (sub, none) →
        sub.cmd.Name ≠ "__complete") ∨
    (initCompleteCmd fullRoot args = fullRoot.AddCommand completeCmd ∧
      ∃ sub, Find (fullRoot.AddCommand completeCmd) args = (sub, none)) := by
  unfold initCompleteCmd
  simp only
  split
  · next heq =>
    refine Or.inl ⟨rfl, ?_⟩
    intro sub hsub
    rw [heq] at hsub
    injection hsub with _ h2
    cases h2
  · next sub heq =>
    split
    · next hne =>
      refine Or.inl ⟨rfl, ?_⟩
      intro sub2 hsub
      rw [heq] at hsub
      injection hsub with h1 _
      rw [← h1]
      exact hne
    · exact Or.inr ⟨rfl, sub, heq⟩

theorem AllCount_initCompleteCmd (args : List String) :
    AllCount (initCompleteCmd fullRoot args) := by
  rcases initCompleteCmd_cases args with ⟨h, _⟩ | ⟨h, _⟩
  · rw [h]; exact AllCount_fullRoot
  · rw [h]; exact AllCount_withComplete

/-- When the lookup on the root that `ExecuteC` uses fails, the first command word of
the arguments names none of the top-level commands -/
theorem Find_error_root (args : List String) (found : Found) (e : Err)
    (h : Find (initCompleteCmd fullRoot args) args = (found, some e)) :
    ∃ w, (stripFlags [] args).head? = some w ∧ w ∉ topLevelNames ∧
      e = Err.unknownCommand w "agentmine" := by
  rcases initCompleteCmd_cases args with ⟨hr, hsub⟩ | ⟨hr, sub, hsub⟩
  · rw [hr] at h
    obtain ⟨w, rest, hsf, he, hfn⟩ := Find_error fullRoot args found e AllCount_fullRoot h
    have hsf0 : stripFlags [] args = w :: rest := hsf
    refine ⟨w, by rw [hsf0]; rfl, ?_, he⟩
    intro hmem
    have hcomplete : ∀ nm : String,
        findNext (fullRoot.AddCommand completeCmd) nm = some completeCmd →
        w = nm → False := by
      intro nm hfind hw
      subst hw
      have hc : Find (fullRoot.AddCommand completeCmd) args =
          (⟨completeCmd, "agentmine" ++ " " ++ completeCmd.Name, true,
            argsMinusFirstX [] w args⟩, none) := by
        unfold Find
        rw [innerfind_cons (fullRoot.AddCommand completeCmd) _ _ args w rest hsf, hfind]
        simp only
        rw [innerfind_leaf completeCmd _ _ _ rfl]
        rfl
      exact hsub _ hc rfl
    simp only [topLevelNames, List.mem_cons, List.mem_singleton, List.not_mem_nil,
      or_false] at hmem
    rcases hmem with hw | hw | hw | hw | hw | hw | hw | hw | hw
    · subst hw; exact absurd (congrArg Option.isSome hfn) (by decide)
    · subst hw; exact absurd (congrArg Option.isSome hfn) (by decide)
    · subst hw; exact absurd (congrArg Option.isSome hfn) (by decide)
    · subst hw; exact absurd (congrArg Option.isSome hfn) (by decide)
    · subst hw; exact absurd (congrArg Option.isSome hfn) (by decide)
    · subst hw; exact absurd (congrArg Option.isSome hfn) (by decide)
    · subst hw; exact absurd (congrArg Option.isSome hfn) (by decide)
    · exact hcomplete "__complete" rfl hw
    · exact hcomplete "__completeNoDesc" rfl hw
  · rw [hr, hsub] at h
    injection h with _ h2
    cases h2

/-! ## The claims -/

/-- C1: each of the five one-argument commands (task add, task show, task start,
task done, skill run) exits non-zero if and only if the number of positional arguments is
not exactly 1.  The positional arguments are given either directly (arguments that are
not flag tokens) or after the `--` terminator (any arguments at all). -/
theorem one_arg_commands_exit_nonzero_iff (c : List String × String)
    (hc : c ∈ oneArgCommands) (args : List String) :
    ((∀ a ∈ args, isFlag a = false) →
      ((main (c.1 ++ args)).exit ≠ 0 ↔ args.length ≠ 1)) ∧
    ((main (c.1 ++ "--" :: args)).exit ≠ 0 ↔ args.length ≠ 1) := by
  have key : ∀ a : List String, parseArgs [⟨"help", some 'h'⟩] a = .ok ([], args) →
      ((main (c.1 ++ a)).exit ≠ 0 ↔ args.length ≠ 1) := by
    intro a ha
    rw [main_oneArg c hc a args ha]
    match args with
    | [] => simp [failure]
    | [s] => simp [success]
    | _ :: _ :: _ => simp [failure]
  exact ⟨fun h => key args (parseArgs_positional _ _ h),
    key _ (parseArgs_dashdash _ _)⟩

theorem one_arg_commands_exit_nonzero_iff_witness :
    (["task", "show"], "Showing task: ") ∈ oneArgCommands ∧
    (∀ a ∈ ["7", "8"], isFlag a = false) ∧
    ((main (["task", "show"] ++ ["7", "8"])).exit ≠ 0 ↔ ["7", "8"].length ≠ 1) :=
  ⟨by decide, by decide,
    (one_arg_commands_exit_nonzero_iff (["task", "show"], "Showing task: ") (by decide)
      ["7", "8"]).1 (by decide)⟩

/-- C2: given a single positional argument `s`, each one-argument command exits with
status 0 and prints its fixed text, then `s` unchanged, then a newline, and nothing
else.  This holds for every `s` that is not a flag token, and for every string `s` at all
when it follows the `--` terminator. -/
theorem one_arg_commands_echo (c : List String × String) (hc : c ∈ oneArgCommands)
    (s : String) :
    (isFlag s = false → main (c.1 ++ [s]) = ⟨[Chunk.text (c.2 ++ s ++ "\n")], [], 0⟩) ∧
    main (c.1 ++ ["--", s]) = ⟨[Chunk.text (c.2 ++ s ++ "\n")], [], 0⟩ := by
  constructor
  · intro h
    rw [main_oneArg c hc [s] [s] (parseArgs_positional _ _ (by simpa using h))]
    rfl
  · rw [main_oneArg c hc ["--", s] [s] (parseArgs_dashdash _ _)]
    rfl

theorem one_arg_commands_echo_witness :
    (["task", "add"], "Adding task: ") ∈ oneArgCommands ∧
    isFlag " write  the docs " = false ∧
    main (["task", "add"] ++ [" write  the docs "]) =
      ⟨[Chunk.text ("Adding task: " ++ " write  the docs " ++ "\n")], [], 0⟩ :=
  ⟨by decide, by decide,
    (one_arg_commands_echo (["task", "add"], "Adding task: ") (by decide)
      " write  the docs ").1 (by decide)⟩

/-- C3: `agent run` exits non-zero with fewer than 2 positional arguments; with 2 or more
it exits with status 0 and prints exactly "Running agent NAME with prompt: PROMPT" and a
newline, where NAME and PROMPT are the first two arguments unchanged, whatever follows
them.  The positional arguments are given directly (no flag tokens) or after `--`. -/
theorem agent_run_contract (args : List String) :
    ((∀ a ∈ args, isFlag a = false) →
      (args.length < 2 → (main (["agent", "run"] ++ args)).exit ≠ 0) ∧
      (∀ name prompt rest, args = name :: prompt :: rest →
        main (["agent", "run"] ++ args) =
          ⟨[Chunk.text ("Running agent " ++ name ++ " with prompt: " ++ prompt ++ "\n")],
            [], 0⟩)) ∧
    ((args.length < 2 → (main (["agent", "run", "--"] ++ args)).exit ≠ 0) ∧
      (∀ name prompt rest, args = name :: prompt :: rest →
        main (["agent", "run", "--"] ++ args) =
          ⟨[Chunk.text ("Running agent " ++ name ++ " with prompt: " ++ prompt ++ "\n")],
            [], 0⟩)) := by
  have key : ∀ a : List String, parseArgs [⟨"help", some 'h'⟩] a = .ok ([], args) →
      (args.length < 2 → (main (["agent", "run"] ++ a)).exit ≠ 0) ∧
      (∀ name prompt rest, args = name :: prompt :: rest →
        main (["agent", "run"] ++ a) =
          ⟨[Chunk.text ("Running agent " ++ name ++ " with prompt: " ++ prompt ++ "\n")],
            [], 0⟩) := by
    intro a ha
    rw [main_agentRun a args ha]
    match args with
    | [] => simp [failure]
    | [s] => simp [failure]
    | x :: y :: t =>
      refine ⟨fun h => ?_, ?_⟩
      · simp at h
        omega
      · intro name prompt rest h
        simp only [List.cons.injEq] at h
        obtain ⟨rfl, rfl, _⟩ := h
        rfl
  exact ⟨fun h => key args (parseArgs_positional _ _ h),
    key ("--" :: args) (parseArgs_dashdash _ _)⟩

theorem agent_run_contract_witness :
    (∀ a ∈ ["researcher", "summarize X", "extra"], isFlag a = false) ∧
    main (["agent", "run"] ++ ["researcher", "summarize X", "extra"]) =
      ⟨[Chunk.text ("Running agent " ++ "researcher" ++ " with prompt: " ++ "summarize X"
        ++ "\n")], [], 0⟩ :=
  ⟨by decide,
    ((agent_run_contract ["researcher", "summarize X", "extra"]).1 (by decide)).2
      "researcher" "summarize X" ["extra"] rfl⟩

/-- C4: the five commands without argument validation (init, task list, agent list,
skill list, ui) exit with status 0 and print exactly their fixed status line for every
list of positional arguments, empty or not (given directly, or after `--`). -/
theorem no_arg_commands_fixed_line (c : List String × String) (hc : c ∈ noArgCommands)
    (args : List String) :
    ((∀ a ∈ args, isFlag a = false) → main (c.1 ++ args) = ⟨[Chunk.text c.2], [], 0⟩) ∧
    main (c.1 ++ "--" :: args) = ⟨[Chunk.text c.2], [], 0⟩ :=
  ⟨fun h => main_noArg c hc args args (parseArgs_positional _ _ h),
    main_noArg c hc ("--" :: args) args (parseArgs_dashdash _ _)⟩

theorem no_arg_commands_fixed_line_witness :
    (["ui"], "Starting web UI on http://localhost:3333\n") ∈ noArgCommands ∧
    (∀ a ∈ ["now", "please"], isFlag a = false) ∧
    main (["ui"] ++ ["now", "please"]) =
      ⟨[Chunk.text "Starting web UI on http://localhost:3333\n"], [], 0⟩ :=
  ⟨by decide, by decide,
    (no_arg_commands_fixed_line (["ui"], "Starting web UI on http://localhost:3333\n")
      (by decide) ["now", "please"]).1 (by decide)⟩

/-- C5, as the claim states it, fails: what `agentmine --version` prints is not the bare
version string, with or without a newline. -/
theorem version_flag_not_bare_version :
    (main ["--version"]).stdout ≠ [Chunk.text version] ∧
    (main ["--version"]).stdout ≠ [Chunk.text (version ++ "\n")] := by
  decide

/-- C5, amended: `agentmine --version` prints exactly the line "agentmine version 0.1.0"
(the program name, the word "version", the value of `version`, a newline) and nothing
else, and exits with status 0. -/
theorem version_flag_prints_version_line :
    main ["--version"] = ⟨[Chunk.text ("agentmine version " ++ version ++ "\n")], [], 0⟩ := by
  decide

/-- C6, as the claim states it, fails: `help` is not one of the five registered verbs,
and `agentmine help` prints the help of the root and exits with status 0 (so does
`agentmine completion`, with the help of `completion`). -/
theorem help_word_exits_zero :
    "help" ∉ ["init", "task", "agent", "skill", "ui"] ∧
    main ["help"] = ⟨[Chunk.help "agentmine"], [], 0⟩ ∧
    "completion" ∉ ["init", "task", "agent", "skill", "ui"] ∧
    main ["completion"] = ⟨[Chunk.help "agentmine completion"], [], 0⟩ := by
  decide

/-- C6, amended: every first command word that is non-empty, does not start with "-" and
is none of the top-level names (the five registered verbs, and `help`, `completion`,
`__complete`, `__completeNoDesc` that the framework adds) fails with the unknown-command
error and exits with status 1, whatever follows it. -/
theorem unknown_top_level_word_fails (w : String) (rest : List String) (h1 : w ≠ "")
    (h2 : HasPrefix w "-" = false) (hw : w ∉ topLevelNames) :
    main (w :: rest) =
      ⟨[], [Chunk.errorLine (Err.unknownCommand w "agentmine"),
            Chunk.runHelpHint "agentmine",
            Chunk.mainErr (Err.unknownCommand w "agentmine")], 1⟩ :=
  main_unknown w rest h1 h2 hw

theorem unknown_top_level_word_fails_witness :
    "bogus-command" ≠ "" ∧ HasPrefix "bogus-command" "-" = false ∧
    "bogus-command" ∉ topLevelNames ∧
    main ("bogus-command" :: []) =
      ⟨[], [Chunk.errorLine (Err.unknownCommand "bogus-command" "agentmine"),
            Chunk.runHelpHint "agentmine",
            Chunk.mainErr (Err.unknownCommand "bogus-command" "agentmine")], 1⟩ :=
  ⟨by decide, by decide, by decide,
    unknown_top_level_word_fails "bogus-command" [] (by decide) (by decide) (by decide)⟩

/-- C7, as the claim states it, fails: `agentmine init --bogus` exits with status 1 on an
unknown-flag error, which is not an argument-count error (`init` accepts any number of
positional arguments and got none); and `agentmine bogus` exits with status 1 on an
unknown-command error. -/
theorem unknown_flag_is_another_failure :
    (main ["init", "--bogus"]).exit = 1 ∧
    (main ["init", "--bogus"]).err = some (Err.unknownFlag "bogus") ∧
    (Err.unknownFlag "bogus").isArgCount = false ∧
    (main ["init"]).exit = 0 ∧
    (main ["bogus"]).exit = 1 ∧
    (main ["bogus"]).err = some (Err.unknownCommand "bogus" "agentmine") ∧
    (Err.unknownCommand "bogus" "agentmine").isArgCount = false := by
  decide

/-- C7, amended: three causes of failure are observable.  Every invocation that exits
non-zero exits with status 1, has written nothing to standard output, and reports one
error `e`, for one of these reasons: the first command word names no top-level command
(`e` is the unknown-command error for that word); or a command was found and a flag
among its arguments could not be parsed (`e` is the flag error of the parser); or a
command was found, its arguments parsed, and its validator rejected the number of
positional arguments (`ExactArgs(1)` with a count other than 1, `MinimumNArgs(n)` with
fewer than n, or `NoArgs` of the framework commands with at least one).  No other
failure mode exists; in particular no run ends in a panic. -/
theorem nonzero_exit_error_kinds (args : List String) (h : (main args).exit ≠ 0) :
    (main args).exit = 1 ∧ (main args).stdout = [] ∧
    ∃ e, (main args).err = some e ∧
      ((∃ w, (stripFlags [] args).head? = some w ∧ w ∉ topLevelNames ∧
          e = Err.unknownCommand w "agentmine") ∨
       (∃ found, Find (initCompleteCmd fullRoot args) args = (found, none) ∧
          found.cmd.DisableFlagParsing = false ∧
          parseArgs (flagsOf found.cmd) found.args = .error e ∧ e.isFlagError = true) ∨
       (∃ found pos, Find (initCompleteCmd fullRoot args) args = (found, none) ∧
          ((found.cmd.DisableFlagParsing = true ∧ pos = found.args) ∨
           (found.cmd.DisableFlagParsing = false ∧
             ∃ vals, parseArgs (flagsOf found.cmd) found.args = .ok (vals, pos))) ∧
          ValidateArgs found.cmd found.path pos = some e ∧
          ((found.cmd.Args = some (ExactArgs 1) ∧ e = Err.exactArgs 1 pos.length ∧
              pos.length ≠ 1) ∨
           (∃ n, found.cmd.Args = some (MinimumNArgs n) ∧
              e = Err.minimumNArgs n pos.length ∧ pos.length < n) ∨
           (∃ a rest, found.cmd.Args = some NoArgs ∧
              e = Err.unknownCommand a found.path ∧ pos = a :: rest)))) := by
  have hp := ExecuteC_ne_panic args
  rw [ExecuteC_eq] at hp
  cases hF : Find (initCompleteCmd fullRoot args) args with
  | mk found oe =>
    cases oe with
    | some e =>
      have hm : main args =
          ⟨[], [Chunk.errorLine e, Chunk.runHelpHint found.path, Chunk.mainErr e], 1⟩ := by
        unfold main
        rw [ExecuteC_eq, hF]
        rfl
      rw [hm]
      exact ⟨rfl, rfl, e, rfl, Or.inl (Find_error_root args found e hF)⟩
    | none =>
      rw [hF] at hp
      simp only at hp
      cases hE : execute (initCompleteCmd fullRoot args) found.cmd found.path found.args with
      | done out errOut =>
        have hm : main args = ⟨out, errOut, 0⟩ := by
          unfold main
          rw [ExecuteC_eq, hF]
          simp only [hE]
        rw [hm] at h
        exact absurd rfl h
      | errHelp =>
        have hm : main args = ⟨[Chunk.help found.path], [], 0⟩ := by
          unfold main
          rw [ExecuteC_eq, hF]
          simp only [hE]
        rw [hm] at h
        exact absurd rfl h
      | panic =>
        rw [hE] at hp
        exact absurd rfl hp
      | error e =>
        have hm : main args = failure e found.path := by
          unfold main
          rw [ExecuteC_eq, hF]
          simp only [hE]
          rfl
        rw [hm]
        refine ⟨rfl, rfl, e, rfl, Or.inr ?_⟩
        rcases execute_error _ _ _ _ _ hE with ⟨hd, hparse⟩ | ⟨pos, hpos, hval⟩
        · exact Or.inl ⟨found, rfl, hd, hparse, parseArgs_error _ _ _ hparse⟩
        · have hfound : found = innerfind (initCompleteCmd fullRoot args)
              (initCompleteCmd fullRoot args).Name false args := by
            rw [← Find_cmd, hF]
          have hcount : CountValidator found.cmd := by
            rw [hfound]
            exact innerfind_count _ (AllCount_initCompleteCmd args) _ _ _
          exact Or.inr ⟨found, pos, rfl, hpos, hval,
            ValidateArgs_count _ _ _ _ hcount hval⟩

theorem nonzero_exit_error_kinds_witness :
    (main ["task", "done", "--force", "3"]).exit ≠ 0 ∧
    (main ["task", "done", "--force", "3"]).exit = 1 ∧
    (main ["task", "done", "--force", "3"]).stdout = [] ∧
    (main ["task", "done", "--force", "3"]).err = some (Err.unknownFlag "force") :=
  ⟨by decide,
    (nonzero_exit_error_kinds ["task", "done", "--force", "3"] (by decide)).1,
    (nonzero_exit_error_kinds ["task", "done", "--force", "3"] (by decide)).2.1,
    by decide⟩

/-- C8: the index expressions of the handlers are guarded by the validators: `args[0]` in
task add/show/start/done and skill run by `ExactArgs(1)`, `args[0]` and `args[1]` in agent
run by `MinimumNArgs(2)`; so for every argument list of the process no handler indexes
out of range: `Execute` never panics and the exit status is never 2. -/
theorem no_handler_indexes_out_of_range (args : List String) :
    (SafeCmd taskAdd ∧ SafeCmd taskShow ∧ SafeCmd taskStart ∧ SafeCmd taskDone ∧
      SafeCmd skillRun ∧ SafeCmd agentRun) ∧
    ExecuteC rootCmd args ≠ Executed.panic ∧ (main args).exit ≠ 2 := by
  refine ⟨⟨SafeCmd_exact1 _ (fun a => "Adding task: " ++ a ++ "\n") rfl rfl,
    SafeCmd_exact1 _ (fun a => "Showing task: " ++ a ++ "\n") rfl rfl,
    SafeCmd_exact1 _ (fun a => "Starting task: " ++ a ++ "\n") rfl rfl,
    SafeCmd_exact1 _ (fun a => "Completing task: " ++ a ++ "\n") rfl rfl,
    SafeCmd_exact1 _ (fun a => "Running skill: " ++ a ++ "\n") rfl rfl,
    SafeCmd_agentRun⟩, ExecuteC_ne_panic args, ?_⟩
  rcases main_cases args with ⟨out, errOut, h0⟩ | ⟨e, p, h1⟩ | ⟨e, p, h1⟩
  · rw [h0]; simp
  · rw [h1]; simp
  · rw [h1]; simp [failure]

/-- C9: validation runs before the handler.  For each command with a count validator
(the five `ExactArgs(1)` commands and `agent run` with `MinimumNArgs(2)`) and every list
of positional arguments that violates it (given directly, or after `--`), nothing is
written to standard output, so none of the handler lines appears, the error reported is
the validator's, and the exit status is exactly 1. -/
theorem validation_precedes_handler (args : List String) :
    (∀ c ∈ oneArgCommands, args.length ≠ 1 →
      ((∀ a ∈ args, isFlag a = false) →
        (main (c.1 ++ args)).stdout = [] ∧ (main (c.1 ++ args)).exit = 1 ∧
        (main (c.1 ++ args)).err = some (Err.exactArgs 1 args.length)) ∧
      ((main (c.1 ++ "--" :: args)).stdout = [] ∧ (main (c.1 ++ "--" :: args)).exit = 1 ∧
        (main (c.1 ++ "--" :: args)).err = some (Err.exactArgs 1 args.length))) ∧
    (args.length < 2 →
      ((∀ a ∈ args, isFlag a = false) →
        (main (["agent", "run"] ++ args)).stdout = [] ∧
        (main (["agent", "run"] ++ args)).exit = 1 ∧
        (main (["agent", "run"] ++ args)).err = some (Err.minimumNArgs 2 args.length)) ∧
      ((main (["agent", "run", "--"] ++ args)).stdout = [] ∧
        (main (["agent", "run", "--"] ++ args)).exit = 1 ∧
        (main (["agent", "run", "--"] ++ args)).err =
          some (Err.minimumNArgs 2 args.length))) := by
  constructor
  · intro c hc hlen
    have key : ∀ a : List String, parseArgs [⟨"help", some 'h'⟩] a = .ok ([], args) →
        (main (c.1 ++ a)).stdout = [] ∧ (main (c.1 ++ a)).exit = 1 ∧
        (main (c.1 ++ a)).err = some (Err.exactArgs 1 args.length) := by
      intro a ha
      rw [main_oneArg c hc a args ha]
      match args, hlen with
      | [], _ => exact ⟨rfl, rfl, rfl⟩
      | [s], hlen => exact absurd rfl hlen
      | _ :: _ :: _, _ => exact ⟨rfl, rfl, rfl⟩
    exact ⟨fun h => key args (parseArgs_positional _ _ h), key _ (parseArgs_dashdash _ _)⟩
  · intro hlen
    have key : ∀ a : List String, parseArgs [⟨"help", some 'h'⟩] a = .ok ([], args) →
        (main (["agent", "run"] ++ a)).stdout = [] ∧
        (main (["agent", "run"] ++ a)).exit = 1 ∧
        (main (["agent", "run"] ++ a)).err = some (Err.minimumNArgs 2 args.length) := by
      intro a ha
      rw [main_agentRun a args ha]
      match args, hlen with
      | [], _ => exact ⟨rfl, rfl, rfl⟩
      | [s], _ => exact ⟨rfl, rfl, rfl⟩
      | _ :: _ :: t, hlen => simp at hlen; omega
    exact ⟨fun h => key args (parseArgs_positional _ _ h),
      key ("--" :: args) (parseArgs_dashdash _ _)⟩

theorem validation_precedes_handler_witness :
    (["task", "start"], "Starting task: ") ∈ oneArgCommands ∧ ([] : List String).length ≠ 1 ∧
    (∀ a ∈ ([] : List String), isFlag a = false) ∧
    (main (["task", "start"] ++ [])).stdout = [] ∧
    (main (["task", "start"] ++ [])).exit = 1 ∧
    (main (["task", "start"] ++ [])).err = some (Err.exactArgs 1 ([] : List String).length) :=
  ⟨by decide, by decide, by decide,
    (((validation_precedes_handler []).1 (["task", "start"], "Starting task: ") (by decide)
      (by decide)).1 (by decide))⟩

/-- C10: the three group verbs (task, agent, skill) have no handler and no argument
validator.  Invoked with no sub-verb, or with one word that does not start with "-" and is
not one of the registered sub-verbs, a group verb runs no handler: it prints only its own
help and exits with status 0, while an unknown top-level word exits with status 1. -/
theorem group_verbs_show_help (g : String × List String) (hg : g ∈ groupVerbs) :
    (taskCmd.RunE.isNone ∧ agentCmd.RunE.isNone ∧ skillCmd.RunE.isNone) ∧
    (taskCmd.Args.isNone ∧ agentCmd.Args.isNone ∧ skillCmd.Args.isNone) ∧
    main [g.1] = ⟨[Chunk.help ("agentmine " ++ g.1)], [], 0⟩ ∧
    (∀ w : String, HasPrefix w "-" = false → w ∉ g.2 →
      main [g.1, w] = ⟨[Chunk.help ("agentmine " ++ g.1)], [], 0⟩) ∧
    (main ["bogus"]).exit = 1 := by
  refine ⟨by decide, by decide, ?_, ?_, by decide⟩
  · simp only [groupVerbs, List.mem_cons, List.mem_singleton, List.not_mem_nil,
      or_false] at hg
    rcases hg with rfl | rfl | rfl <;> decide
  · intro w hw hnot
    simp only [groupVerbs, List.mem_cons, List.mem_singleton, List.not_mem_nil,
      or_false] at hg
    rcases hg with rfl | rfl | rfl
    · exact main_notRunnable ["task"] w taskCmd "agentmine task" (by decide) rfl rfl rfl hw
        (findNext_none _ w _ (by decide) hnot) (by decide) rfl rfl rfl rfl rfl
    · exact main_notRunnable ["agent"] w agentCmd "agentmine agent" (by decide) rfl rfl rfl hw
        (findNext_none _ w _ (by decide) hnot) (by decide) rfl rfl rfl rfl rfl
    · exact main_notRunnable ["skill"] w skillCmd "agentmine skill" (by decide) rfl rfl rfl hw
        (findNext_none _ w _ (by decide) hnot) (by decide) rfl rfl rfl rfl rfl

theorem group_verbs_show_help_witness :
    ("task", ["add", "list", "show", "start", "done"]) ∈ groupVerbs ∧
    HasPrefix "bogus" "-" = false ∧ "bogus" ∉ ["add", "list", "show", "start", "done"] ∧
    main ["task", "bogus"] = ⟨[Chunk.help ("agentmine " ++ "task")], [], 0⟩ :=
  ⟨by decide, by decide, by decide,
    (group_verbs_show_help ("task", ["add", "list", "show", "start", "done"])
      (by decide)).2.2.2.1 "bogus" (by decide) (by decide)⟩

end Agentmine
